import Mathlib

/-!
Verification of the npillmayer/fp repository specification.

This file contains a shallow embedding, in Lean 4, of the parts of the
repository that the frozen claims C1..C10 talk about:

* the persistent B-tree (`persistent/btree`): water marks, the copy-on-write
  insert (`With`) and the delete-time `balance`/`rotateRight` combinators;
* the persistent vector (`persistent/vector`): `Get`, `Set`, `Push`, `Pop`,
  `Last` over the tail-buffered trie;
* the concurrent tree walker (`tree`): the sink `waitForCompletion`,
  the `clientFilter` task, `CalcRank`, and the nil-walker behaviour of the
  builder/promise chain.

Pure Go functions are translated into Lean functions; Go `panic` (failed
`assertThat`, out-of-range slice access, nil dereference) is modelled by
`Option` with `none` for the panic; 32-bit unsigned arithmetic is modelled
with `Nat` and explicit `% 2^32` where wrap-around matters.
-/

namespace FP

/-! ## Persistent B-tree: basic constants and helpers (`persistent/btree`) -/

namespace Btree

/-- Source `btree.go`: `const defaultLowWaterMark uint = 3`. -/
def defaultLowWaterMark : Nat := 3

/-- Source `btree.go`: `const defaultHighWaterMark uint = (defaultLowWaterMark+1)*2 - 1`. -/
def defaultHighWaterMark : Nat := (defaultLowWaterMark + 1) * 2 - 1

/-- Helper for `ceiling`: strip bits of `m` until only the most significant
one is left; this is the loop `for n&(n-1) > 0 { n = n & (n-1) }` of the
source function `ceiling` in `internals.go`. The first argument is fuel: the
loop runs at most `m` iterations because `m &&& (m-1) < m` whenever the loop
is entered, so starting the fuel at `m` computes exactly the loop's result. -/
def stripAux : Nat → Nat → Nat
  | 0, m => m
  | fuel + 1, m => if m &&& (m - 1) = 0 then m else stripAux fuel (m &&& (m - 1))

/-- Loop of the source function `ceiling` in `internals.go`, stripping the
rightmost set bits of `m` until a power of two is left. -/
def stripToTopBit (m : Nat) : Nat := stripAux m m

/-- Source `internals.go` `ceiling(n)`: `n+1` is stripped to its top bit and
the result doubled (the next power of two); `0` for non-positive input. -/
def ceiling (n : Nat) : Nat :=
  if n = 0 then 0
  else (stripToTopBit (n + 1)) <<< 1

/-- Item of the persistent B-tree, source `internals.go`: `xitem` with a key
and a value. -/
structure XItem (K V : Type) where
  key : K
  value : V
  deriving Repr, DecidableEq

/-- Node of the persistent B-tree, source `internals.go`: `xnode` with items
and children. A leaf has no children; child pointers may be nil, which is
modelled by `Option`. -/
inductive XNode (K V : Type) where
  | mk (items : List (XItem K V)) (children : List (Option (XNode K V)))

/-- Items of an `XNode`. -/
def XNode.items {K V : Type} : XNode K V → List (XItem K V)
  | .mk its _ => its

/-- Children of an `XNode`. -/
def XNode.children {K V : Type} : XNode K V → List (Option (XNode K V))
  | .mk _ chs => chs

/-- Source `internals.go`: `isLeaf` is true when the children sequence is
empty. -/
def XNode.isLeaf {K V : Type} (node : XNode K V) : Bool :=
  node.children.length = 0

/-- Source `internals.go`: `overfull` compares the item count against the
high water mark. -/
def XNode.overfull {K V : Type} (node : XNode K V) (highWater : Nat) : Bool :=
  node.items.length > highWater

/-- Source `internals.go`: `underfull` compares the item count against the
low water mark. -/
def XNode.underfull {K V : Type} (node : XNode K V) (lowWater : Nat) : Bool :=
  node.items.length < lowWater

/-- Persistent B-tree, source `internals.go`/`part_017`: root pointer, depth
and the two water marks. The zero value `Tree{}` is the empty tree. -/
structure Tree (K V : Type) where
  root : Option (XNode K V) := none
  depth : Nat := 0
  lowWaterMark : Nat := 0
  highWaterMark : Nat := 0

/-- Source `internals.go` `shallowCloneWithRoot`: copy the water marks,
installing the defaults whenever the low water mark is unset, and set the
given node as the root. -/
def Tree.shallowCloneWithRoot {K V : Type} (tree : Tree K V) (node : XNode K V) : Tree K V :=
  let low := if tree.lowWaterMark = 0 then defaultLowWaterMark else tree.lowWaterMark
  let high := if tree.lowWaterMark = 0 then defaultHighWaterMark else tree.highWaterMark
  { root := some node, depth := tree.depth, lowWaterMark := low, highWaterMark := high }

/-- Option passed to the B-tree constructor: a transformation of the fresh
tree. -/
def TreeOption (K V : Type) := Tree K V → Tree K V

/-- Modelled from the spec: the constructor `Tree::immutable(options…)`
(the canonical `Immutable` function of `persistent/btree` is not among the
provided sources; only its tests call it). It returns the empty tree with
all options applied. -/
def Immutable {K V : Type} (opts : List (TreeOption K V)) : Tree K V :=
  opts.foldl (fun t o => o t) {}

/-- Modelled from the spec: the option `degree(n)` of `Tree::immutable`
(missing from the provided sources; exercised by `TestTreeCreateEmptyTree`).
Per the spec it sets `low_water_mark = max(2, n-1)` and derives
`high_water_mark` per the water-mark relation, which matches the test
expectation `Immutable(Degree(2))` ⇒ marks `2 | 6`. -/
def Degree {K V : Type} (n : Nat) : TreeOption K V :=
  fun t =>
    let low := max 2 (n - 1)
    { t with lowWaterMark := low, highWaterMark := ceiling (low * 2) - 2 }

/-! ### Node cloning and editing (`internals.go`) -/

/-- Helper modelling `make([]*xnode, n)` followed by `copy` from `chs`:
the first `min n chs.length` entries are copied, the rest stay nil. -/
def copyChildren {K V : Type} (chs : List (Option (XNode K V))) (n : Nat) :
    List (Option (XNode K V)) :=
  chs.take n ++ List.replicate (n - chs.length) none

/-- Source `internals.go` `cloneWithCapacity`: an empty node stays the empty
node when no capacity is requested; otherwise items are copied and, for
internal nodes, exactly `itemcnt+1` children are copied (padding with nil /
truncating). The internal assertion `cap > itemcnt` always holds because
`ceiling(c) > c` for `c ≥ 1`, so the function is total. Capacity itself is
not observable in the value model. -/
def XNode.cloneWithCapacity {K V : Type} (node : XNode K V) (cap : Nat) : XNode K V :=
  let itemcnt := node.items.length
  if itemcnt = 0 ∧ cap = 0 then ⟨[], []⟩
  else if node.isLeaf then ⟨node.items, []⟩
  else ⟨node.items, copyChildren node.children (itemcnt + 1)⟩

/-- Source `internals.go` `clone` = `cloneWithCapacity(0)`. -/
def XNode.clone {K V : Type} (node : XNode K V) : XNode K V :=
  node.cloneWithCapacity 0

/-- Source `internals.go` `withDeletedItem`: clone with the item at `at`
removed, and for internal nodes the child at `at` removed. Panics (none)
when `at` is not a valid item index (the `at = len` case passes the source
assertion but then panics on the slice expression `cow.items[at+1:]`). -/
def XNode.withDeletedItem {K V : Type} (node : XNode K V) (at' : Nat) :
    Option (XNode K V) :=
  if at' < node.items.length then
    let cow := node.clone
    some ⟨cow.items.take at' ++ cow.items.drop (at' + 1),
          if cow.isLeaf then cow.children
          else cow.children.take at' ++ cow.children.drop (at' + 1)⟩
  else none

/-- Source `internals.go` `withInsertedItem`: clone with `item` inserted at
index `at`. For internal nodes a nil child placeholder is inserted at
`at+1`; note that the non-append branch of the source appends
`node.children[at:]` (not `[at+1:]`), which yields `itemcnt+3` children.
Panics (none) when `at > len(items)`. -/
def XNode.withInsertedItem {K V : Type} (node : XNode K V) (item : XItem K V)
    (at' : Nat) : Option (XNode K V) :=
  if at' ≤ node.items.length then
    let cap := max (at' + 1) (node.items.length + 1)
    let cow := node.cloneWithCapacity cap
    if at' = node.items.length then
      some ⟨cow.items ++ [item],
            if cow.isLeaf then cow.children else cow.children ++ [none]⟩
    else
      some ⟨cow.items.take at' ++ [item] ++ node.items.drop at',
            if cow.isLeaf then cow.children
            else cow.children.take (at' + 1) ++ [none] ++ node.children.drop at'⟩
  else none

/-- Source `internals.go` `withCutRight`: clone with the rightmost item cut
off, returning the clone, the item and (for internal nodes) the rightmost
child. Panics (none) on an empty node. -/
def XNode.withCutRight {K V : Type} (node : XNode K V) :
    Option (XNode K V × XItem K V × Option (XNode K V)) :=
  match node.items.getLast? with
  | none => none
  | some item =>
      let cow := node.clone
      if node.isLeaf then
        some (⟨cow.items.dropLast, cow.children⟩, item, none)
      else
        match cow.children.getLast? with
        | none => none
        | some rchld => some (⟨cow.items.dropLast, cow.children.dropLast⟩, item, rchld)

/-- Source `internals.go` `withCutLeft`: clone with the leftmost item cut
off, returning the clone, the item and (for internal nodes) the leftmost
child. Panics (none) on an empty node. -/
def XNode.withCutLeft {K V : Type} (node : XNode K V) :
    Option (XNode K V × XItem K V × Option (XNode K V)) :=
  match node.items with
  | [] => none
  | item :: rest =>
      let cow := node.clone
      if node.isLeaf then
        some (⟨rest, cow.children⟩, item, none)
      else
        match cow.children with
        | [] => none
        | lchld :: chrest => some (⟨rest, chrest⟩, item, lchld)

/-! ### Slots and the balancing combinators (`path.go`, `internals.go`) -/

/-- Source `path.go`: a `slot` holds a node pointer (possibly nil) and an
index; a path is a list of slots. -/
structure Slot (K V : Type) where
  node : Option (XNode K V) := none
  index : Nat := 0

/-- Source `path.go` `slot.len`: the item count, `0` for the nil slot. -/
def Slot.len {K V : Type} (s : Slot K V) : Nat :=
  match s.node with
  | none => 0
  | some n => n.items.length

/-- Source `path.go` `slot.items`: the items, `[]` for the nil slot. -/
def Slot.itemsOf {K V : Type} (s : Slot K V) : List (XItem K V) :=
  match s.node with
  | none => []
  | some n => n.items

/-- Source `path.go` `slot.item`: the item at the slot's index; panic
(none) for a nil slot or an out-of-range index. -/
def Slot.item {K V : Type} (s : Slot K V) : Option (XItem K V) :=
  match s.node with
  | none => none
  | some n => n.items.get? s.index

/-- Source `path.go` `slot.underfull`: a nil slot is underfull; otherwise
compare against the low water mark. -/
def Slot.underfull {K V : Type} (s : Slot K V) (lowWaterMark : Nat) : Bool :=
  match s.node with
  | none => true
  | some n => n.underfull lowWaterMark

/-- Source `path.go` `slot.replaceItem`: write `item` at the slot's index
and return the previous item there, together with the updated node (the
source mutates the node in place). Panics (none) for a nil node or an
out-of-range index. -/
def Slot.replaceItem {K V : Type} (s : Slot K V) (item : XItem K V) :
    Option (XItem K V × XNode K V) :=
  match s.node with
  | none => none
  | some n =>
      match n.items.get? s.index with
      | none => none
      | some old => some (old, ⟨n.items.set s.index item, n.children⟩)

/-- Source `path.go` `leftSibling`: the empty slot when there is no parent
node, no children or the child is leftmost; otherwise the sibling pointer
left of the slot index, with the sibling's item count as index. Panics
(none) when the slot index exceeds the child count or the sibling pointer
is nil. -/
def Slot.leftSibling {K V : Type} (s : Slot K V) (_child : Slot K V) :
    Option (Slot K V) :=
  match s.node with
  | none => some {}
  | some n =>
      if n.children.length = 0 ∨ s.index = 0 then some {}
      else if s.index ≤ n.children.length then
        match n.children.get? (s.index - 1) with
        | some (some lsib) => some { node := some lsib, index := lsib.items.length }
        | _ => none
      else none

/-- Source `path.go` `rightSibling`: the empty slot when there is no parent
node, no children or the child is rightmost; otherwise the sibling pointer
right of the slot index, with the sibling's item count as index. Panics
(none) when the sibling pointer is nil. -/
def Slot.rightSibling {K V : Type} (s : Slot K V) (_child : Slot K V) :
    Option (Slot K V) :=
  match s.node with
  | none => some {}
  | some n =>
      if n.children.length = 0 ∨ s.index + 1 ≥ n.children.length then some {}
      else
        match n.children.get? (s.index + 1) with
        | some (some rsib) => some { node := some rsib, index := rsib.items.length }
        | _ => none

/-- Source `path.go` `mergeinfo`: parent slot plus the ordered pair of
child slots to merge. -/
structure MergeInfo (K V : Type) where
  parent : Slot K V
  left : Slot K V
  right : Slot K V

/-- Source `path.go` `siblings2`: child and one of its siblings as a
correctly ordered pair; the parent index is decremented when the left
sibling is used. Panics (none) when the parent slot is a leaf or nil, its
index is out of range, or a sibling lookup panics. -/
def Slot.siblings2 {K V : Type} (s : Slot K V) (child : Slot K V) :
    Option (MergeInfo K V) :=
  match s.node with
  | none => none
  | some n =>
      if n.isLeaf then none
      else if s.index < n.children.length then
        match s.leftSibling child with
        | none => none
        | some sbl =>
            match sbl.node with
            | some _ => some ⟨{ s with index := s.index - 1 }, sbl, child⟩
            | none =>
                match s.rightSibling child with
                | none => none
                | some rsbl =>
                    match child.node with
                    | none => none
                    | some _ => some ⟨s, child, rsbl⟩
      else none

/-- Source `internals.go` `cloneSeam`: clone the parent node and hang the
(new) child into it at the parent's slot index. Panics (none) when the
parent node is nil or the index is out of range of the cloned children. -/
def cloneSeam {K V : Type} (parent child : Slot K V) : Option (Slot K V) :=
  match parent.node with
  | none => none
  | some p =>
      let cowParent := p.clone
      if parent.index < cowParent.children.length then
        some ⟨some ⟨cowParent.items, cowParent.children.set parent.index child.node⟩,
              parent.index⟩
      else none

/-- Source `internals.go` `merge`: steal the separating item from the
parent and merge the two sibling slots into a single child, linked at the
(adjusted) parent index. Panics (none) when the parent is empty, a node
pointer is nil, an index is out of range, or the internal child-count
assertion fails. -/
def Slot.merge {K V : Type} (parent : Slot K V) (mi : MergeInfo K V) :
    Option (Slot K V) :=
  if parent.len = 0 then none
  else
    match parent.node with
    | none => none
    | some p =>
        match p.withDeletedItem mi.parent.index with
        | none => none
        | some cow =>
            match mi.left.node with
            | none => none
            | some lnode =>
                match mi.parent.item with
                | none => none
                | some stolen =>
                    let cap := mi.left.len + mi.right.len + 1
                    let cowch0 := lnode.cloneWithCapacity cap
                    let cowch1 : XNode K V :=
                      ⟨cowch0.items ++ [stolen] ++ mi.right.itemsOf, cowch0.children⟩
                    let cowch : XNode K V :=
                      if !cowch1.isLeaf ∧ mi.right.len > 0 then
                        match mi.right.node with
                        | some rnode => ⟨cowch1.items, cowch1.children ++ rnode.children⟩
                        | none => cowch1
                      else cowch1
                    if (!cowch.isLeaf ∧ mi.right.len > 0) →
                        cowch.children.length = mi.left.len + 1 then
                      if mi.parent.index < cow.children.length then
                        some ⟨some ⟨cow.items,
                                cow.children.set mi.parent.index (some cowch)⟩,
                              mi.parent.index⟩
                      else none
                    else none

/-- Source `internals.go` `rotateRight`: cut the rightmost item from the
left sibling, write it over the parent item at the parent's slot index,
insert the previous parent item as the leftmost item of the right slot
(receiving the left sibling's former rightmost child for internal nodes),
and link the two rebuilt nodes at children positions `index` and
`index+1`. Panics (none) on nil nodes, out-of-range indices or the internal
assertion. -/
def Slot.rotateRight {K V : Type} (parent lsbl rsbl : Slot K V) :
    Option (Slot K V) :=
  match parent.node with
  | none => none
  | some p =>
      let cow := p.clone
      match lsbl.node with
      | none => none
      | some ln =>
          match ln.withCutRight with
          | none => none
          | some (cowlsbl, lsblxitem, grandChild) =>
              match Slot.replaceItem ⟨some cow, parent.index⟩ lsblxitem with
              | none => none
              | some (parentxitem, cow2) =>
                  match rsbl.node with
                  | none => none
                  | some rn =>
                      match rn.withInsertedItem parentxitem 0 with
                      | none => none
                      | some cowrsbl0 =>
                          match
                            (if !cowrsbl0.isLeaf then
                              if cowlsbl.children.length = cowlsbl.items.length + 1 then
                                if cowrsbl0.children.length > 0 then
                                  some (⟨cowrsbl0.items,
                                    cowrsbl0.children.set 0 grandChild⟩ : XNode K V)
                                else none
                              else none
                            else some cowrsbl0) with
                          | none => none
                          | some cowrsbl =>
                              if parent.index + 1 < cow2.children.length then
                                some ⟨some ⟨cow2.items,
                                        ((cow2.children.set parent.index (some cowlsbl)).set
                                          (parent.index + 1) (some cowrsbl))⟩,
                                      parent.index⟩
                              else none

/-- Source `internals.go` `rotateLeft`: the mirror image of `rotateRight`,
stealing from the right sibling. -/
def Slot.rotateLeft {K V : Type} (parent lsbl rsbl : Slot K V) :
    Option (Slot K V) :=
  match parent.node with
  | none => none
  | some p =>
      let cow := p.clone
      match rsbl.node with
      | none => none
      | some rn =>
          match rn.withCutLeft with
          | none => none
          | some (cowrsbl, rsblxitem, grandChild) =>
              match Slot.replaceItem ⟨some cow, parent.index⟩ rsblxitem with
              | none => none
              | some (parentxitem, cow2) =>
                  match lsbl.node with
                  | none => none
                  | some ln =>
                      match ln.withInsertedItem parentxitem ln.items.length with
                      | none => none
                      | some cowlsbl0 =>
                          match
                            (if !cowlsbl0.isLeaf then
                              if cowlsbl0.children.length = cowlsbl0.items.length + 1 then
                                if cowlsbl0.items.length < cowlsbl0.children.length then
                                  some (⟨cowlsbl0.items,
                                    cowlsbl0.children.set cowlsbl0.items.length grandChild⟩
                                      : XNode K V)
                                else none
                              else none
                            else some cowlsbl0) with
                          | none => none
                          | some cowlsbl =>
                              if parent.index + 1 < cow2.children.length then
                                some ⟨some ⟨cow2.items,
                                        ((cow2.children.set parent.index (some cowlsbl)).set
                                          (parent.index + 1) (some cowrsbl))⟩,
                                      parent.index⟩
                              else none

/-- Source `internals.go` `slot.balance`: rotate right when the left
sibling can spare an item, otherwise rotate left when the right sibling
can, otherwise merge. Panics (none) when the parent has no children. -/
def Slot.balanceStep {K V : Type} (parent child : Slot K V)
    (lowWaterMark : Nat) : Option (Slot K V) :=
  match parent.node with
  | none => none
  | some p =>
      if p.children.length = 0 then none
      else
        match parent.leftSibling child with
        | none => none
        | some lsbl =>
            if !lsbl.underfull (lowWaterMark + 1) then
              parent.rotateRight lsbl child
            else
              match parent.rightSibling child with
              | none => none
              | some rsbl =>
                  if !rsbl.underfull (lowWaterMark + 1) then
                    parent.rotateLeft child rsbl
                  else
                    match parent.siblings2 child with
                    | none => none
                    | some mi => parent.merge mi

/-- Source `internals.go` `balance`: the fold combinator of the delete
path. An underfull child is rebalanced through the parent; otherwise the
parent is clone-seamed. Panics (none) when the child node pointer is nil. -/
def balance {K V : Type} (lowWaterMark : Nat) (parent child : Slot K V) :
    Option (Slot K V) :=
  match child.node with
  | none => none
  | some c =>
      if c.underfull lowWaterMark then parent.balanceStep child lowWaterMark
      else cloneSeam parent child

end Btree

namespace XT

/-!
Embedding of the `XTree` draft of `btree.go` (the file that claims C7 cites:
`XTree.With`, lines 207–233). This draft shares the node shape with
`internals.go`, so `Btree.XNode`, `Btree.XItem` and `Btree.Slot` are reused;
the functions that differ between the drafts are defined here.
-/

open Btree

variable {K V : Type} [LinearOrder K] [DecidableEq V]

/-- Source `btree.go` `findSlot`: binary search (`sort.Search`) for the
smallest index whose key is `≥ k`; found when that index is in range and
the key there equals `k`. -/
def findSlot (node : XNode K V) (k : K) : Bool × Nat :=
  let slotinx := node.items.findIdx (fun it => k ≤ it.key)
  (decide (slotinx < node.items.length) &&
    (node.items.get? slotinx |>.any (fun it => it.key = k)), slotinx)

/-- Loop of `findKeyAndPath` in `btree.go`: walk down from a node, searching
each node and recording `(node, index)` slots, stopping at an exact match or
at a leaf. Dereferencing a nil child pointer panics (none). -/
def findLoop (k : K) (node : XNode K V) (path : List (Slot K V)) :
    Option (Bool × List (Slot K V)) :=
  if node.isLeaf then
    let (found, index) := findSlot node k
    some (found, path ++ [⟨some node, index⟩])
  else
    let (found, index) := findSlot node k
    let path1 := path ++ [⟨some node, index⟩]
    if found then some (true, path1)
    else
      match h : node.children.get? index with
      | none => none
      | some none => none
      | some (some child) => findLoop k child path1
  termination_by sizeOf node
  decreasing_by
    have hmem : some child ∈ node.children := List.get?_mem h
    have h1 : sizeOf (some child) < sizeOf node.children := List.sizeOf_lt_of_mem hmem
    have h2 : sizeOf node.children < sizeOf node := by
      cases node with
      | mk its chs => simp [XNode.children]
    simp at h1
    omega

/-- Source `btree.go` `XTree.findKeyAndPath`: empty path for an absent
root, otherwise the walk from the root. -/
def findKeyAndPath (tree : Tree K V) (k : K) : Option (Bool × List (Slot K V)) :=
  match tree.root with
  | none => some (false, [])
  | some root => findLoop k root []

/-- Source `path.go` `slotPath.last`: the last slot, or the empty slot for
an empty path. -/
def lastSlot (path : List (Slot K V)) : Slot K V :=
  (path.getLast?).getD {}

/-- Source `path.go` `slotPath.foldR` threaded through the `Option` monad,
because the fold combinators of this draft can panic: the combinator is
applied from the last slot towards the first. -/
def foldRM (f : Slot K V → Slot K V → Option (Slot K V)) (path : List (Slot K V))
    (zero : Slot K V) : Option (Slot K V) :=
  path.foldr (fun s macc => macc.bind fun r => f s r) (some zero)

/-- Source `btree.go` `XTree.shallowCloneWithRoot`: copies the water marks
(installing defaults when the low water mark is unset) and sets the root;
unlike the `internals.go` variant it does not copy the depth. -/
def shallowCloneWithRoot (tree : Tree K V) (node : XNode K V) : Tree K V :=
  let low := if tree.lowWaterMark = 0 then defaultLowWaterMark else tree.lowWaterMark
  let high := if tree.lowWaterMark = 0 then defaultHighWaterMark else tree.highWaterMark
  { root := some node, depth := 0, lowWaterMark := low, highWaterMark := high }

/-- Source `btree.go` `withReplacedValue`: clone with the value at index
`at` replaced (the key is kept). Panics (none) when the index is not a
valid item index. -/
def withReplacedValue (node : XNode K V) (item : XItem K V) (at' : Nat) :
    Option (XNode K V) :=
  match node.items.get? at' with
  | none => none
  | some old =>
      let cow := node.clone
      some ⟨cow.items.set at' ⟨old.key, item.value⟩, cow.children⟩

/-- Source `btree.go` `withInsertedItem` (this draft differs from the
`internals.go` version): in the append case the children are left
untouched; in the insert case the second `append` reads from the already
reassigned `cow.items`/`cow.children`, so the tail that is appended is the
single new item (respectively the nil placeholder and the child at `at`).
Panics (none) when `at > len(items)`. -/
def withInsertedItem (node : XNode K V) (item : XItem K V) (at' : Nat) :
    Option (XNode K V) :=
  if at' ≤ node.items.length then
    let cap := max (ceiling at') node.items.length
    let cow := node.cloneWithCapacity cap
    if at' = node.items.length then
      some ⟨cow.items ++ [item], cow.children⟩
    else
      let items1 := cow.items.take at' ++ [item]
      let chs1 := cow.children.take (at' + 1) ++ [none]
      some ⟨items1 ++ items1.drop at',
            if cow.isLeaf then cow.children else chs1 ++ chs1.drop at'⟩
  else none

/-- Source `btree.go` `slice`: non-positive ranges give the empty node; for
positive ranges the draft computes `size := from - to`, which is negative,
and `make` with a negative size panics (none). -/
def slice (node : XNode K V) (fromInx toInx : Int) : Option (XNode K V) :=
  let to1 : Int := if toInx < 0 then node.items.length else toInx
  if to1 - fromInx ≤ 0 then some ⟨[], []⟩ else none

/-- Source `btree.go` `asNonLeaf`: identity on internal nodes; a leaf gets
an allocated, empty children slice. -/
def asNonLeaf (node : XNode K V) : XNode K V :=
  if !node.isLeaf then node else ⟨node.items, []⟩

/-- Source `btree.go` `splitChild` of the `XTree` draft: splits around the
median of the parent's item count (a quirk of this draft: `half` comes from
`node`, the parent, and the halves are slices of the parent). Panics
(none) whenever a sub-step panics, which `slice` does on every non-empty
range. -/
def splitChild (node : XNode K V) (s : Slot K V) : Option (Slot K V) :=
  match s.node with
  | none => none
  | some child =>
      let half := node.items.length / 2
      match child.items.get? half with
      | none => none
      | some medianItem =>
          match slice node 0 half with
          | none => none
          | some siblingL =>
              match slice node (half + 1) (-1) with
              | none => none
              | some siblingR =>
                  let (found, index) := findSlot node medianItem.key
                  if found then none
                  else
                    match withInsertedItem node medianItem index with
                    | none => none
                    | some cow0 =>
                        let cow := asNonLeaf cow0
                        if index + 1 < cow.children.length then
                          some ⟨some ⟨cow.items,
                                  ((cow.children.set index (some siblingL)).set
                                    (index + 1) (some siblingR))⟩,
                                index⟩
                        else none

/-- Source `btree.go` `splitAndClone`: the fold combinator of the insert
path — split an overfull child, otherwise clone-seam. Panics (none) on a
nil child pointer. -/
def splitAndClone (highWaterMark : Nat) (parent child : Slot K V) :
    Option (Slot K V) :=
  match child.node with
  | none => none
  | some c =>
      if c.overfull highWaterMark then
        match parent.node with
        | none => none
        | some p => splitChild p child
      else cloneSeam parent child

/-- Source `btree.go` `XTree.replacing`: clone the hit node with the value
replaced and fold the remaining path with `cloneSeam`; the resulting tree
carries only the new root (depth and water marks of the result are the zero
values, as in the source, which returns a fresh `newTree`). -/
def replacing (tree : Tree K V) (k : K) (v : V) (path : List (Slot K V)) :
    Option (Tree K V) :=
  match path.getLast? with
  | none => none
  | some hit =>
      match hit.node with
      | none => none
      | some hitNode =>
          match withReplacedValue hitNode ⟨k, v⟩ hit.index with
          | none => none
          | some cow =>
              match foldRM cloneSeam path.dropLast ⟨some cow, hit.index⟩ with
              | none => none
              | some newRoot => some { (⟨none, 0, 0, 0⟩ : Tree K V) with root := newRoot.node }

/-- Source `btree.go` `XTree.With` (lines 207–233): search the key; on an
exact match with the same value return the tree itself unchanged; on an
exact match with a different value clone the seam with the value replaced;
otherwise insert, splitting overfull nodes up the seam and the root. -/
def With (tree : Tree K V) (k : K) (v : V) : Option (Tree K V) :=
  match findKeyAndPath tree k with
  | none => none
  | some (found, path) =>
      if found then
        match (lastSlot path).item with
        | none => none
        | some it =>
            if it.value = v then some tree
            else replacing tree k v path
      else
        let item : XItem K V := ⟨k, v⟩
        match tree.root with
        | none => (withInsertedItem (⟨[], []⟩ : XNode K V) item 0).map
            (shallowCloneWithRoot tree)
        | some _ =>
            let leafSlot := lastSlot path
            match leafSlot.node with
            | none => none
            | some leafNode =>
                if !leafNode.isLeaf then none
                else
                  match withInsertedItem leafNode item leafSlot.index with
                  | none => none
                  | some cow =>
                      match foldRM (splitAndClone tree.highWaterMark) path.dropLast
                          ⟨some cow, leafSlot.index⟩ with
                      | none => none
                      | some newRoot0 =>
                          match newRoot0.node with
                          | none => none
                          | some rootNode =>
                              if rootNode.overfull tree.highWaterMark then
                                (splitChild (⟨[], []⟩ : XNode K V) newRoot0).map
                                  (fun nr => { (⟨none, 0, 0, 0⟩ : Tree K V) with root := nr.node })
                              else some { (⟨none, 0, 0, 0⟩ : Tree K V) with root := some rootNode }

end XT

/-! ## Claim C7: insertion of an already-present binding is the identity -/

/-- Claim C7: when the insertion path for `k` terminates at an exact-match
slot whose stored value equals `v`, `With(k, v)` returns the input tree
itself, completely unchanged — same root, same depth, same water marks. -/
theorem claim_C7 {K V : Type} [LinearOrder K] [DecidableEq V]
    (tree : Btree.Tree K V) (k : K) (v : V)
    (path : List (Btree.Slot K V)) (it : Btree.XItem K V)
    (hfp : XT.findKeyAndPath tree k = some (true, path))
    (hit : (XT.lastSlot path).item = some it)
    (hval : it.value = v) :
    XT.With tree k v = some tree := by
  unfold XT.With
  rw [hfp]
  simp [hit, hval]

/-- Concrete single-leaf tree holding the binding `7 ↦ 7`. -/
def c7tree : Btree.Tree Int Int := ⟨some ⟨[⟨7, 7⟩], []⟩, 1, 3, 6⟩

/-- Claim C7, witness: inserting the already-present binding `7 ↦ 7` into
the concrete tree returns the identical tree. -/
theorem claim_C7_witness : XT.With c7tree 7 7 = some c7tree := by
  apply claim_C7 c7tree 7 7 [⟨some ⟨[⟨7, 7⟩], []⟩, 0⟩] ⟨7, 7⟩
  · show XT.findLoop 7 ⟨[⟨(7 : Int), (7 : Int)⟩], []⟩ [] = _
    rw [XT.findLoop]
    simp [Btree.XNode.isLeaf, Btree.XNode.items, Btree.XNode.children, XT.findSlot,
      List.findIdx_cons]
  · simp [XT.lastSlot, Btree.Slot.item, Btree.XNode.items]
  · rfl

/-! ## Claim C5: the right-rotation detail of the delete fold -/

/-- Items with equal key and value, shorthand for building test nodes. -/
def kv (ks : List Int) : List (Btree.XItem Int Int) := ks.map (fun k => ⟨k, k⟩)

/-- Concrete leaf `[1,2,3,4]`: left sibling with `low_water_mark + 1` items. -/
def c5leafA : Btree.XNode Int Int := ⟨kv [1, 2, 3, 4], []⟩

/-- Concrete leaf `[12,15]`: the underfull child (2 items, low water mark 3). -/
def c5leafB : Btree.XNode Int Int := ⟨kv [12, 15], []⟩

/-- Concrete leaf `[25,26,27]`: the right sibling of the underfull child. -/
def c5leafC : Btree.XNode Int Int := ⟨kv [25, 26, 27], []⟩

/-- Concrete parent node `[10,20]` with children `A`, `B`, `C`; the child
descended into is `B` at position 1, so the item separating `A` from `B`
is `10` at position 0. -/
def c5parent : Btree.XNode Int Int :=
  ⟨kv [10, 20], [some c5leafA, some c5leafB, some c5leafC]⟩

/-- Parent slot of the delete path: node `c5parent`, descent index 1. -/
def c5parentSlot : Btree.Slot Int Int := ⟨some c5parent, 1⟩

/-- Child slot of the delete path: the underfull leaf `B`. -/
def c5childSlot : Btree.Slot Int Int := ⟨some c5leafB, 0⟩

/-- Digest of a balancing result: parent keys, children key lists, slot
index. -/
def c5digest (s : Option (Btree.Slot Int Int)) :
    Option (List Int × List (Option (List Int)) × Nat) :=
  s.bind fun sl => sl.node.map fun n =>
    (n.items.map (·.key), n.children.map (Option.map (fun c => c.items.map (·.key))), sl.index)

/-- Claim C5, evaluation at the failing input: the delete-fold `balance`
combinator on the underfull child `B = [12,15]` (low water mark 3) with
left sibling `A = [1,2,3,4]` performs a right rotation, but the code
replaces the parent item at the child's position (`20`, the separator with
the right sibling) instead of at position `index-1` (`10`, the separator
with the left sibling), and links the rebuilt nodes at children positions
`index` and `index+1` instead of `index-1` and `index`: the result is
parent `[10,4]` with children `[1,2,3,4] | [1,2,3] | [20,12,15]` — the
right sibling `C = [25,26,27]` is overwritten and the old `A` duplicated —
whereas the claim demands parent `[4,20]` with children
`[1,2,3] | [10,12,15] | [25,26,27]`. -/
theorem claim_C5_eval :
    c5leafB.underfull 3 = true
    ∧ c5leafA.underfull (3 + 1) = false
    ∧ c5digest (Btree.balance 3 c5parentSlot c5childSlot)
        = some ([10, 4], [some [1, 2, 3, 4], some [1, 2, 3], some [20, 12, 15]], 1)
    ∧ c5digest (Btree.balance 3 c5parentSlot c5childSlot)
        ≠ some ([4, 20], [some [1, 2, 3], some [10, 12, 15], some [25, 26, 27]], 1) := by
  refine ⟨rfl, rfl, rfl, ?_⟩
  decide

/-! ## Concurrent tree walker (`tree/tree.go`, `part_000`, `part_001`) -/

namespace Walker

/-- Identity of a mutable tree node as seen by the pipeline sink: Go
deduplicates by the node pointer and reads the node's `Rank`. Distinct
pointers get distinct `id`s. -/
structure GoNode where
  id : Nat
  rank : Nat
  deriving DecidableEq, Repr

/-- Error taxonomy of the walker (`tree.go`): the three sentinel errors
plus task errors carried on the error channel. -/
inductive GoErr where
  | errEmptyTree
  | errInvalidFilter
  | errNoMoreFilters
  | taskError (code : Nat)
  deriving DecidableEq, Repr

/-- Go map assignment `m[node] = serial` on an association list: an existing
key is updated in place, a new key is appended. The iteration order of the
model is the insertion order. -/
def mapPut (m : List (GoNode × Nat)) (p : GoNode × Nat) : List (GoNode × Nat) :=
  if m.any (fun q => q.1 = p.1) then
    m.map (fun q => if q.1 = p.1 then (q.1, p.2) else q)
  else m ++ [p]

/-- Ordering of result pairs by serial, the order used by `resultSlices`
(`part_001`): `Less(i,j) = serials[i] < serials[j]`, so sorting makes the
serials ascending. -/
def serialLE (a b : GoNode × Nat) : Prop := a.2 ≤ b.2

instance : DecidableRel serialLE := fun a b => Nat.decLe a.2 b.2

instance : IsTotal (GoNode × Nat) serialLE := ⟨fun a b => Nat.le_total a.2 b.2⟩

instance : IsTrans (GoNode × Nat) serialLE := ⟨fun _ _ _ => Nat.le_trans⟩

/-- Model of `sort.Sort(resultSlices{selection, serials})` from
`waitForCompletion`: the paired slices are sorted together by ascending
serial (`sort.Sort` guarantees the ordering postcondition; the model uses
insertion sort). -/
def sortPairs (sel : List (GoNode × Nat)) : List (GoNode × Nat) :=
  sel.insertionSort serialLE

/-- One iteration of the extraction loop of `waitForCompletion`
(`part_000`, lines 385–394): append the node and serial, then — if the
selection is non-empty and its first node has `Rank > 0` — sort the paired
slices by serial. -/
def extractStep (sel : List (GoNode × Nat)) (p : GoNode × Nat) :
    List (GoNode × Nat) :=
  match sel ++ [p] with
  | [] => sel ++ [p]
  | (n, _) :: _ => if 0 < n.rank then sortPairs (sel ++ [p]) else sel ++ [p]

/-- Result pairs of `waitForCompletion` on a drained results channel: the
channel contents are collapsed into the duplicate-suppression map and then
extracted pair by pair, sorting along the way. -/
def wfcPairs (packages : List (GoNode × Nat)) : List (GoNode × Nat) :=
  (packages.foldl mapPut []).foldl extractStep []

/-- Last non-nil error drained from the error channel (`part_000`, lines
396–401). -/
def lastError (errs : List (Option GoErr)) : Option GoErr :=
  errs.foldl (fun acc e => match e with | some x => some x | none => acc) none

/-- Source `part_000` `waitForCompletion`: the selection handed to the
promise caller (serials are discarded) together with the last error. The
two channels are modelled by the lists of values drained from them. -/
def waitForCompletion (packages : List (GoNode × Nat)) (errs : List (Option GoErr)) :
    List GoNode × Option GoErr :=
  ((wfcPairs packages).map Prod.fst, lastError errs)

/-- Serial stored with the last package for a given node, `none` when the
node never arrived: the "last write wins" contents of the duplicate map. -/
def lastFind (packages : List (GoNode × Nat)) (n : GoNode) : Option (GoNode × Nat) :=
  packages.reverse.find? (fun q => q.1 = n)

/-- Predicate result type of the walker: `Predicate` returns a matched node
(or nil) and an error (or nil). -/
def PredF : Type := GoNode → GoNode → Option GoNode × Option GoErr

/-- Source `tree.go` `Whatever`: the predicate matching anything — it
returns the node under test and no error. -/
def whatever : PredF := fun test _node => (some test, none)

/-- Source `tree.go` `clientFilter` (lines 374–384): run the user
predicate on the node and forward the result to the next stage only when
the returned node is non-nil AND the returned error is non-nil (the
condition as written in the source); the error is returned either way.
The first component collects the `push` calls. -/
def clientFilter (userfunc : PredF) (node : GoNode) (serial : Nat) :
    List (GoNode × Nat) × Option GoErr :=
  let r := userfunc node node
  (match r.1, r.2 with
   | some n, some _ => [(n, serial)]
   | _, _ => [], r.2)

/-! ### Lemmas about the sink `waitForCompletion` -/

/-- Keys of the duplicate map after one `mapPut`: unchanged for an update,
extended by the new key for an append. -/
theorem mapPut_keys (m : List (GoNode × Nat)) (p : GoNode × Nat) :
    (mapPut m p).map Prod.fst =
      if m.any (fun q => q.1 = p.1) then m.map Prod.fst
      else m.map Prod.fst ++ [p.1] := by
  unfold mapPut
  split
  · rw [List.map_map]
    apply List.map_congr_left
    intro q _
    by_cases hq : q.1 = p.1 <;> simp [hq]
  · simp

/-- Keys of the duplicate map stay pairwise distinct while packages are
folded in. -/
theorem foldl_mapPut_keys_nodup (l : List (GoNode × Nat)) :
    ∀ m : List (GoNode × Nat), (m.map Prod.fst).Nodup →
      ((l.foldl mapPut m).map Prod.fst).Nodup := by
  induction l with
  | nil => intro m hm; simpa using hm
  | cons x l ih =>
      intro m hm
      rw [List.foldl_cons]
      apply ih
      rw [mapPut_keys]
      split
      · exact hm
      · next hany =>
          rw [List.nodup_append]
          refine ⟨hm, List.nodup_singleton _, ?_⟩
          intro a ha hb
          simp only [List.mem_singleton] at hb
          subst hb
          simp only [List.mem_map] at ha
          obtain ⟨q, hq, hqa⟩ := ha
          have : m.any (fun q => q.1 = x.1) = true :=
            List.any_eq_true.mpr ⟨q, hq, by simp [hqa]⟩
          simp [this] at hany

/-- One extraction step permutes the selection extended by the new pair. -/
theorem extractStep_perm (acc : List (GoNode × Nat)) (x : GoNode × Nat) :
    (extractStep acc x).Perm (acc ++ [x]) := by
  unfold extractStep
  split
  · exact List.Perm.refl _
  · split
    · exact List.perm_insertionSort serialLE _
    · exact List.Perm.refl _

/-- The extraction loop permutes the map contents. -/
theorem foldl_extractStep_perm (l : List (GoNode × Nat)) :
    ∀ acc : List (GoNode × Nat), (l.foldl extractStep acc).Perm (acc ++ l) := by
  induction l with
  | nil => intro acc; simp
  | cons x l ih =>
      intro acc
      rw [List.foldl_cons]
      refine ((ih (extractStep acc x)).trans ?_)
      have h1 : (extractStep acc x ++ l).Perm ((acc ++ [x]) ++ l) :=
        (extractStep_perm acc x).append_right l
      refine h1.trans ?_
      simp

/-- Result pairs of the sink are a permutation of the duplicate map. -/
theorem wfcPairs_perm (packages : List (GoNode × Nat)) :
    (wfcPairs packages).Perm (packages.foldl mapPut []) := by
  simpa using foldl_extractStep_perm (packages.foldl mapPut []) []

/-- Claim C1 dedup core: the selection contains each node identity at most
once. -/
theorem wfcPairs_keys_nodup (packages : List (GoNode × Nat)) :
    ((wfcPairs packages).map Prod.fst).Nodup := by
  have hperm := (wfcPairs_perm packages).map Prod.fst
  exact hperm.nodup_iff.mpr (foldl_mapPut_keys_nodup packages [] (by simp))

/-- Lookup through a map that preserves keys: `find?` on a key commutes
with the map. -/
theorem find?_map_keyfix (f : GoNode × Nat → GoNode × Nat)
    (hf : ∀ q, (f q).1 = q.1) (m : List (GoNode × Nat)) (k : GoNode) :
    (m.map f).find? (fun q => q.1 = k) = (m.find? (fun q => q.1 = k)).map f := by
  induction m with
  | nil => simp
  | cons q m ih =>
      by_cases hq : q.1 = k
      · rw [List.map_cons, List.find?_cons_of_pos _ (by simp [hf, hq]),
          List.find?_cons_of_pos _ (by simp [hq])]
        simp
      · rw [List.map_cons, List.find?_cons_of_neg _ (by simp [hf, hq]),
          List.find?_cons_of_neg _ (by simp [hq])]
        exact ih

/-- Lookup after a single `mapPut`: the written key maps to the new serial,
other keys are untouched. -/
theorem find?_mapPut (m : List (GoNode × Nat)) (p : GoNode × Nat) (k : GoNode) :
    (mapPut m p).find? (fun q => q.1 = k) =
      if p.1 = k then some (p.1, p.2) else m.find? (fun q => q.1 = k) := by
  unfold mapPut
  split
  · next hany =>
      rw [find?_map_keyfix _ (fun q => by by_cases hq : q.1 = p.1 <;> simp [hq])]
      by_cases hk : p.1 = k
      · subst hk
        rcases List.any_eq_true.mp hany with ⟨r, hr, hrp⟩
        have hsome : (m.find? (fun q => q.1 = p.1)).isSome := by
          rw [List.find?_isSome]
          exact ⟨r, hr, hrp⟩
        rcases Option.isSome_iff_exists.mp hsome with ⟨r0, hr0⟩
        have hr0p : r0.1 = p.1 := by simpa using List.find?_some hr0
        rw [hr0, if_pos rfl]
        simp [hr0p]
      · rw [if_neg hk]
        cases hfind : m.find? (fun q => q.1 = k) with
        | none => simp
        | some r =>
            have hrk : r.1 = k := by simpa using List.find?_some hfind
            have hrp : ¬ r.1 = p.1 := fun hc => hk (by rw [← hc, hrk])
            simp [hrp]
  · next hany =>
      rw [List.find?_append]
      by_cases hk : p.1 = k
      · have hnone : m.find? (fun q => q.1 = k) = none := by
          rw [List.find?_eq_none]
          intro q hq hqk
          exact (by simp [hany] : ¬ m.any (fun r => r.1 = p.1) = true)
            (List.any_eq_true.mpr ⟨q, hq, by simp at hqk; simp [hqk, hk]⟩)
        rcases p with ⟨p1, p2⟩
        simp only at hk
        subst hk
        simp [hnone]
      · have hpx : ([p].find? (fun q => q.1 = k)) = none := by
          simp [hk]
        simp [hpx, hk]

/-- Lookup in the folded duplicate map: the last occurrence of the key in
the package stream wins, falling back to the initial map. -/
theorem find?_foldl_mapPut (l : List (GoNode × Nat)) :
    ∀ (m : List (GoNode × Nat)) (k : GoNode),
      (l.foldl mapPut m).find? (fun q => q.1 = k) =
        (l.reverse.find? (fun q => q.1 = k)).orElse
          (fun _ => m.find? (fun q => q.1 = k)) := by
  induction l with
  | nil => intro m k; simp
  | cons x l ih =>
      intro m k
      rw [List.foldl_cons, ih, List.reverse_cons, List.find?_append, find?_mapPut]
      cases hfind : l.reverse.find? (fun q => q.1 = k) with
      | some r => simp [Option.orElse]
      | none =>
          by_cases hk : x.1 = k
          · rcases x with ⟨x1, x2⟩
            simp only at hk
            subst hk
            simp [Option.orElse]
          · simp [Option.orElse, hk]

/-- With pairwise-distinct keys, `find?` on a member's key returns exactly
that member. -/
theorem find?_of_mem_nodup (m : List (GoNode × Nat)) (p : GoNode × Nat)
    (hnd : (m.map Prod.fst).Nodup) (hp : p ∈ m) :
    m.find? (fun q => q.1 = p.1) = some p := by
  induction m with
  | nil => cases hp
  | cons q m ih =>
      rcases List.mem_cons.mp hp with hq | hm
      · subst hq
        exact List.find?_cons_of_pos _ (by simp)
      · have hq1 : ¬ q.1 = p.1 := by
          intro hc
          have : p.1 ∈ m.map Prod.fst := List.mem_map.mpr ⟨p, hm, rfl⟩
          rw [List.map_cons, List.nodup_cons] at hnd
          exact hnd.1 (hc ▸ this)
        rw [List.find?_cons_of_neg _ (by simp [hq1])]
        exact ih (by rw [List.map_cons, List.nodup_cons] at hnd; exact hnd.2) hm

/-- Claim C1 serial core: every pair of the selection carries the serial of
the last package seen for its node. -/
theorem wfcPairs_lastFind (packages : List (GoNode × Nat)) (p : GoNode × Nat)
    (hp : p ∈ wfcPairs packages) : lastFind packages p.1 = some p := by
  have hm : p ∈ packages.foldl mapPut [] := (wfcPairs_perm packages).mem_iff.mp hp
  have hfind := find?_of_mem_nodup _ p (foldl_mapPut_keys_nodup packages [] (by simp)) hm
  have := find?_foldl_mapPut packages [] p.1
  rw [hfind] at this
  unfold lastFind
  cases hrev : packages.reverse.find? (fun q => q.1 = p.1) with
  | none => rw [hrev] at this; simp [Option.orElse] at this
  | some r => rw [hrev] at this; simp [Option.orElse] at this; rw [this]

/-- Claim C1 ordering core: when every node of the result set has positive
rank, the extraction loop leaves the selection sorted by ascending serial
(the final step re-sorts the whole selection). -/
theorem wfcPairs_sorted (packages : List (GoNode × Nat))
    (h : ∀ p ∈ wfcPairs packages, 0 < p.1.rank) :
    List.Sorted serialLE (wfcPairs packages) := by
  rcases List.eq_nil_or_concat (packages.foldl mapPut []) with hnil | ⟨m', a, hconcat⟩
  · unfold wfcPairs
    rw [hnil]
    simp
  · have hfold : wfcPairs packages =
        extractStep ((m').foldl extractStep []) a := by
      unfold wfcPairs
      rw [hconcat, List.concat_eq_append, List.foldl_append]
      simp
    set mid := (m').foldl extractStep [] with hmid
    rcases hcons : mid ++ [a] with _ | ⟨hd, tl⟩
    · exact absurd hcons (by simp)
    · have hmem : hd ∈ wfcPairs packages := by
        rw [hfold]
        have : hd ∈ mid ++ [a] := by rw [hcons]; exact List.mem_cons_self _ _
        exact ((extractStep_perm mid a).symm.mem_iff).mp this
      have hrank : 0 < hd.1.rank := h hd hmem
      rw [hfold]
      unfold extractStep
      rw [hcons]
      rcases hd with ⟨n, s⟩
      simp only
      rw [if_pos hrank]
      exact List.sorted_insertionSort serialLE _

end Walker

/-! ## Claim C1: deduplication and ordering at the pipeline sink -/

/-- Claim C1, counterexample: with the result packages
`(node 1 with rank 0, serial 5)` then `(node 2 with rank 1, serial 3)` the
result set contains a node of positive rank, yet the selection is not
sorted by ascending serial — the sink only sorts while `selection[0]` has
positive rank, and here the first extracted node has rank 0. The claim's
"if any node in the result set has rank > 0" therefore fails on the code. -/
theorem claim_C1_counterexample :
    (∃ p ∈ Walker.wfcPairs [(⟨1, 0⟩, 5), (⟨2, 1⟩, 3)], 0 < p.1.rank)
    ∧ ¬ List.Sorted Walker.serialLE (Walker.wfcPairs [(⟨1, 0⟩, 5), (⟨2, 1⟩, 3)]) := by
  decide

/-- Claim C1, amended: for every finite collection of result packages
drained by the pipeline sink, the selection returned to the promise caller
contains each node identity at most once, the last serial seen for a node
winning for ordering purposes; and if EVERY node in the result set has
rank > 0, the selection is sorted by ascending serial. -/
theorem claim_C1_amended (packages : List (Walker.GoNode × Nat))
    (errs : List (Option Walker.GoErr)) :
    (Walker.waitForCompletion packages errs).1 = (Walker.wfcPairs packages).map Prod.fst
    ∧ ((Walker.wfcPairs packages).map Prod.fst).Nodup
    ∧ (∀ p ∈ Walker.wfcPairs packages, Walker.lastFind packages p.1 = some p)
    ∧ ((∀ p ∈ Walker.wfcPairs packages, 0 < p.1.rank) →
        List.Sorted Walker.serialLE (Walker.wfcPairs packages)) :=
  ⟨rfl, Walker.wfcPairs_keys_nodup packages, Walker.wfcPairs_lastFind packages,
    Walker.wfcPairs_sorted packages⟩

/-- Claim C1, witness: at the concrete drained packages
`(node 1 rank 1, serial 5)`, `(node 2 rank 3, serial 3)` every node has
positive rank, and the theorem yields a duplicate-free selection sorted by
ascending serial. -/
theorem claim_C1_amended_witness :
    List.Sorted Walker.serialLE (Walker.wfcPairs [(⟨1, 1⟩, 5), (⟨2, 3⟩, 3)])
    ∧ ((Walker.wfcPairs [(⟨1, 1⟩, 5), (⟨2, 3⟩, 3)]).map Prod.fst).Nodup
    ∧ Walker.lastFind [(⟨1, 1⟩, 5), (⟨2, 3⟩, 3)] ⟨2, 3⟩ = some (⟨2, 3⟩, 3) :=
  ⟨(claim_C1_amended [(⟨1, 1⟩, 5), (⟨2, 3⟩, 3)] []).2.2.2 (by decide),
   (claim_C1_amended [(⟨1, 1⟩, 5), (⟨2, 3⟩, 3)] []).2.1,
   (claim_C1_amended [(⟨1, 1⟩, 5), (⟨2, 3⟩, 3)] []).2.2.1 (⟨2, 3⟩, 3) (by decide)⟩

/-! ## Claim C4: the Filter stage task -/

/-- Claim C4, evaluation at the failing input: the predicate `Whatever`
returns the (non-nil) node under test with a nil error, so per the claim
the Filter task must emit the node — but `clientFilter` emits nothing,
because the source condition is `n != nil && err != nil`; conversely, a
predicate returning a node TOGETHER with an error gets its node emitted.
The emission condition in the code is inverted with respect to the claim
(and to the filter's own documentation). -/
theorem claim_C4_eval :
    Walker.whatever ⟨1, 0⟩ ⟨1, 0⟩ = (some ⟨1, 0⟩, none)
    ∧ Walker.clientFilter Walker.whatever ⟨1, 0⟩ 42 = ([], none)
    ∧ Walker.clientFilter (fun t _ => (some t, some (.taskError 1))) ⟨1, 0⟩ 42
        = ([(⟨1, 0⟩, 42)], some (.taskError 1)) :=
  ⟨rfl, rfl, rfl⟩

/-! ## Mutable tree nodes and bottom-up rank calculation (`tree.go`) -/

namespace Walker

/-- Mutable tree node as needed for `CalcRank`: a rank and a child
sequence whose slots may be empty (nil), exactly the shape of
`Node[T]` in `tree.go` restricted to the fields `CalcRank` touches. -/
inductive GNode where
  | mk (rank : Nat) (children : List (Option GNode))

/-- Rank field of a node. -/
def GNode.rank : GNode → Nat
  | .mk r _ => r

/-- Child slots of a node. -/
def GNode.children : GNode → List (Option GNode)
  | .mk _ cs => cs

/-- Rank sum over the present children, the loop of `CalcRank`: the slots
for which `Child(i)` reports ok contribute their `Rank`. -/
def presentRankSum : List (Option GNode) → Nat
  | [] => 0
  | none :: rest => presentRankSum rest
  | some g :: rest => g.rank + presentRankSum rest

/-- Source `tree.go` `CalcRank` (lines 527–538): set the node's rank to one
plus the rank sum of its present children, return the node and no error. -/
def CalcRank (n : GNode) (_parent : Option GNode) (_position : Nat) :
    GNode × Option GoErr :=
  (⟨1 + presentRankSum n.children, n.children⟩, none)

/-- Bottom-up application of `CalcRank` over a subtree: children are
processed before their parent, which is the ordering guarantee of
`BottomUp` (`tree.go`), whose rank-counter map holds a node back until all
its children have been counted. -/
def calcRankBU (n : GNode) : GNode :=
  match n with
  | .mk r cs =>
      (CalcRank ⟨r, cs.attach.map (fun c =>
        match c with
        | ⟨none, _⟩ => none
        | ⟨some g, _⟩ => some (calcRankBU g))⟩ none 0).1
  termination_by sizeOf n
  decreasing_by
    rename_i hmem0
    have h1 := List.sizeOf_lt_of_mem hmem0
    simp at h1
    simp
    omega

/-- Unfolding of the bottom-up pass: process all child subtrees, then run
`CalcRank` on the node. -/
theorem calcRankBU_unfold (r : Nat) (cs : List (Option GNode)) :
    calcRankBU ⟨r, cs⟩
      = (CalcRank ⟨r, cs.map (Option.map calcRankBU)⟩ none 0).1 := by
  unfold calcRankBU
  congr 3
  have hfun : ∀ c ∈ cs.attach,
      (match c with
        | ⟨none, _⟩ => (none : Option GNode)
        | ⟨some g, _⟩ => some (calcRankBU g)) = Option.map calcRankBU c.1 := by
    intro c _
    rcases c with ⟨x, hx⟩
    cases x <;> rfl
  exact (List.map_congr_left hfun).trans (List.attach_map_coe cs (Option.map calcRankBU))

end Walker

/-! ## Claim C8: `calc_rank` and the S2 scenario -/

/-- Tree of scenario S2: `root` has children `a` and `b`; `a` has one
child `c`. Ranks start at zero. -/
def s2c : Walker.GNode := ⟨0, []⟩

/-- Node `a` of scenario S2, with single child `c`. -/
def s2a : Walker.GNode := ⟨0, [some s2c]⟩

/-- Node `b` of scenario S2, a leaf. -/
def s2b : Walker.GNode := ⟨0, []⟩

/-- Root of scenario S2, with children `a` and `b`. -/
def s2root : Walker.GNode := ⟨0, [some s2a, some s2b]⟩

/-- Claim C8: `calc_rank(n, parent, position)` always returns the pair
`(n, no error)` with `n.rank` set to one plus the rank sum of the present
children; and applying it bottom-up (children before parents, the
`descendents_with(leaf)` → `bottom_up(calc_rank)` schedule) to the S2 tree
gives `root.rank = 4`, `a.rank = 2`, `b.rank = 1`, `c.rank = 1`. -/
theorem claim_C8 :
    (∀ (n : Walker.GNode) (parent : Option Walker.GNode) (pos : Nat),
        Walker.CalcRank n parent pos
          = (⟨1 + Walker.presentRankSum n.children, n.children⟩, none))
    ∧ Walker.calcRankBU s2root
        = ⟨4, [some ⟨2, [some ⟨1, []⟩]⟩, some ⟨1, []⟩]⟩ := by
  constructor
  · intro n parent pos
    rfl
  · simp [s2root, s2a, s2b, s2c, Walker.calcRankBU_unfold, Walker.CalcRank,
      Walker.presentRankSum, Walker.GNode.children, Walker.GNode.rank]

/-! ## Walker construction, builders and the promise (`tree.go`) -/

namespace Walker

/-- Kind of a pipeline stage, recording which filter task was appended. -/
inductive StageKind where
  | parentK
  | ancestorK
  | descendentsK
  | filterK
  | topDownK
  | bottomUpK
  deriving DecidableEq, Repr

/-- Pipeline state as the walker builders see it: appended stages, the
error channel contents and the input queue (`pushSync` of the initial
node). -/
structure PipeS where
  stages : List StageKind := []
  errors : List GoErr := []
  input : List (GoNode × Nat) := []

/-- Walker state (`tree.go`): the initial node, the pipeline, and the
promising flag. A nil walker is `none` at type `Option WalkerS`. -/
structure WalkerS where
  initial : GoNode
  pipe : PipeS
  promising : Bool

/-- Source `tree.go` `NewWalker`: a nil initial node yields the nil
walker, otherwise a walker with an empty pipeline. -/
def NewWalker (initial : Option GoNode) : Option WalkerS :=
  match initial with
  | none => none
  | some n => some ⟨n, {}, false⟩

/-- Source `tree.go` `appendFilterForTask` combined with
`startProcessing`: refuse (`ErrNoMoreFiltersAccepted`, modelled `none`,
the builders panic on it) when the walker is promising; otherwise push the
initial node when this is the first stage, and append the stage. -/
def appendFilterForTask (w : WalkerS) (kind : StageKind) : Option WalkerS :=
  if w.promising then none
  else
    let pipe0 :=
      if w.pipe.stages.isEmpty then
        { w.pipe with input := w.pipe.input ++ [(w.initial, 0)] }
      else w.pipe
    some ⟨w.initial, { pipe0 with stages := pipe0.stages ++ [kind] }, w.promising⟩

/-- Action type of the walker: `(node, parent, position) → (node?, err?)`. -/
def ActF : Type := GoNode → Option GoNode → Nat → Option GoNode × Option GoErr

/-- One fluent builder call, with its argument when it takes a predicate
or an action (nil argument = `none`). `allDescendents` is the wrapper
around `descendentsWith(Whatever)`. -/
inductive Builder where
  | parentB
  | ancestorWith (pred : Option PredF)
  | descendentsWith (pred : Option PredF)
  | allDescendents
  | filterB (pred : Option PredF)
  | topDown (act : Option ActF)
  | bottomUp (act : Option ActF)

/-- Shared shape of the predicate/action builders in `tree.go`: nil walker
→ nil walker; nil predicate/action → signal `ErrInvalidFilter` on the
error channel and return the walker unchanged; otherwise append the filter
stage (panicking, outer `none`, when the pipeline refuses). The outer
`Option` is the panic of the source's `panic(err)`. -/
def buildWith {A : Type} (w : Option WalkerS) (arg : Option A) (kind : StageKind) :
    Option (Option WalkerS) :=
  match w with
  | none => some none
  | some wk =>
      match arg with
      | none => some (some ⟨wk.initial,
          { wk.pipe with errors := wk.pipe.errors ++ [GoErr.errInvalidFilter] },
          wk.promising⟩)
      | some _ =>
          match appendFilterForTask wk kind with
          | none => none
          | some w' => some (some w')

/-- Source `tree.go`: apply one fluent builder to a walker. `Parent` has
no argument; `AllDescendents` delegates to `DescendentsWith(Whatever())`. -/
def applyBuilder (b : Builder) (w : Option WalkerS) : Option (Option WalkerS) :=
  match b with
  | .parentB =>
      match w with
      | none => some none
      | some wk =>
          match appendFilterForTask wk .parentK with
          | none => none
          | some w' => some (some w')
  | .ancestorWith pred => buildWith w pred .ancestorK
  | .descendentsWith pred => buildWith w pred .descendentsK
  | .allDescendents => buildWith w (some whatever) .descendentsK
  | .filterB pred => buildWith w pred .filterK
  | .topDown act => buildWith w act .topDownK
  | .bottomUp act => buildWith w act .bottomUpK

/-- Chain of fluent builder calls, stopping at a panic. -/
def foldBuilders (bs : List Builder) (w : Option WalkerS) : Option (Option WalkerS) :=
  match bs with
  | [] => some w
  | b :: rest =>
      match applyBuilder b w with
      | none => none
      | some w' => foldBuilders rest w'

/-- Source `tree.go` `Promise` (lines 137–161): on a nil walker the
returned closure always yields the nil selection and `ErrEmptyTree`;
otherwise the closure hands out what `waitForCompletion` drained from the
results and error channels. -/
def promiseOf (w : Option WalkerS) (drained : List (GoNode × Nat))
    (errs : List (Option GoErr)) : List GoNode × Option GoErr :=
  match w with
  | none => ([], some GoErr.errEmptyTree)
  | some _ => waitForCompletion drained errs

end Walker

/-! ## Claim C9: the nil walker -/

/-- Claim C9: `NewWalker(nil)` yields the nil walker; every builder — and
hence every chain of builders — applied to the nil walker returns the nil
walker without panicking; and the promise of the nil walker is a closure
that always yields the empty selection together with the empty-tree
error, whatever the channels would have carried. -/
theorem claim_C9 :
    Walker.NewWalker none = none
    ∧ (∀ b : Walker.Builder, Walker.applyBuilder b none = some none)
    ∧ (∀ bs : List Walker.Builder, Walker.foldBuilders bs (Walker.NewWalker none) = some none)
    ∧ (∀ (drained : List (Walker.GoNode × Nat)) (errs : List (Option Walker.GoErr)),
        Walker.promiseOf none drained errs = ([], some Walker.GoErr.errEmptyTree)) := by
  refine ⟨rfl, ?_, ?_, fun _ _ => rfl⟩
  · intro b
    cases b <;> rfl
  · intro bs
    induction bs with
    | nil => rfl
    | cons b rest ih =>
        show Walker.foldBuilders (b :: rest) none = some none
        unfold Walker.foldBuilders
        have hb : Walker.applyBuilder b none = some none := by cases b <;> rfl
        rw [hb]
        exact ih

/-! ## Persistent vector (`persistent/vector/vector.go` and its helpers) -/

namespace Vec

/-- Modulus of the 32-bit unsigned arithmetic of the source (`uint32`). -/
def U32MOD : Nat := 4294967296

/-- Wrap-around `uint32` subtraction `a - b` for `a, b < 2^32`; this is
where the source's unsigned loop counters (`level -= bits`) and size
computations (`v.length - v.degree - 1`) can wrap. -/
def usub (a b : Nat) : Nat := (a + U32MOD - b % U32MOD) % U32MOD

/-- Go `a &^ b` (AND NOT) on `uint32`. -/
def andNot (a b : Nat) : Nat := a &&& ((U32MOD - 1) ^^^ (b % U32MOD))

/-- Source `hamt/vector/internals.go` (the sibling vector draft holding the helper definitions; the canonical `persistent/vector` package shares them): `props` — bits per level, degree
(`2^bits`), mask (`degree-1`) and the shift (`bits * height`). -/
structure Props where
  bits : Nat := 0
  degree : Nat := 0
  mask : Nat := 0
  shift : Nat := 0
  deriving DecidableEq, Repr

/-- Source `hamt/vector/internals.go` (the sibling vector draft holding the helper definitions; the canonical `persistent/vector` package shares them): `withShift` replaces the shift. -/
def Props.withShift (p : Props) (shift : Nat) : Props :=
  { p with shift := shift }

/-- Modelled from the spec: `props.init()` of `persistent/vector` (the
package's `internals.go` is not among the provided sources; `vector.go`
calls `v.props.init()` before every operation). Per the `DegreeExponent`
documentation the default exponent is 3, i.e. degree 8; a configured
props value is left unchanged. -/
def Props.init (p : Props) : Props :=
  if p.degree = 0 then { bits := 3, degree := 8, mask := 7, shift := p.shift }
  else p

/-- Source `vector.go` constant used by `pushLeaf`, `lowerTrie` and
`popTrie` through the bare identifier `bits` (and the literals `level-5`
and `i>>5` in `pushLeaf`): the package-level constant is 5, as in the
sibling draft `hamt/vector/internals.go` (`const bits uint32 = 5`). -/
def bitsConst : Nat := 5

/-- Source `hamt/vector/internals.go` (the sibling vector draft holding the helper definitions; the canonical `persistent/vector` package shares them): `vnode` — an interior node holds
child pointers (possibly nil), a leaf holds values; the zero node has
neither. -/
inductive VNode (T : Type) where
  | mk (children : List (Option (VNode T))) (leafs : List T)

/-- Children of a vector node. -/
def VNode.children {T : Type} : VNode T → List (Option (VNode T))
  | .mk cs _ => cs

/-- Leaf values of a vector node. -/
def VNode.leafs {T : Type} : VNode T → List T
  | .mk _ ls => ls

/-- Source `hamt/vector/internals.go` (the sibling vector draft holding the helper definitions; the canonical `persistent/vector` package shares them): `newLeaf` copies the tail into a fresh
leaf node. -/
def newLeaf {T : Type} (tail : List T) : VNode T := ⟨[], tail⟩

/-- Source `hamt/vector/internals.go` (the sibling vector draft holding the helper definitions; the canonical `persistent/vector` package shares them): `emptyNode(k)` allocates an interior
node with `k` nil children. -/
def emptyNode (T : Type) (k : Nat) : VNode T := ⟨List.replicate k none, []⟩

/-- Source `hamt/vector/internals.go` (the sibling vector draft holding the helper definitions; the canonical `persistent/vector` package shares them): `clone` copies a node's slices; in the
value model the copy is the node itself (the capacity extension is not
observable). -/
def VNode.clone {T : Type} (node : VNode T) (_extend : Bool) : VNode T :=
  ⟨node.children, node.leafs⟩

/-- Source `hamt/vector/internals.go` (the sibling vector draft holding the helper definitions; the canonical `persistent/vector` package shares them): `cloneTail(tail, l)` allocates `l`
zero values and copies the first `min(l, len(tail))` entries of the tail
over them. -/
def cloneTail {T : Type} [Inhabited T] (tail : List T) (l : Nat) : List T :=
  tail.take (min l tail.length) ++ List.replicate (l - min l tail.length) default

/-- Loop of `newPath`: wrap the node once per `bits` step while
`level > 0`, on `uint32` wrap-around arithmetic. The fuel is the iteration
count of the terminating regime (`levels/bits`); a wrapped loop counter
needs around `2^32/bits` iterations (allocating one node each — far beyond
any feasible memory) or never reaches zero at all, and both are modelled
as failure (`none`). A zero degree would make the `newTop.children[0]`
assignment panic. -/
def newPathGo {T : Type} (k bits : Nat) : Nat → Nat → VNode T → Option (VNode T)
  | 0, level, topNode => if level = 0 then some topNode else none
  | fuel + 1, level, topNode =>
      if level = 0 then some topNode
      else if k = 0 then none
      else newPathGo k bits fuel (usub level bits)
        ⟨(List.replicate k none).set 0 (some topNode), []⟩

/-- Modelled from the spec: `newPath(levels, bits, k, tail)` of
`persistent/vector` (the package's `internals.go` is not among the
provided sources). Per the spec a freshly constructed spine at `levels = 0`
is the leaf itself, so that every path from the root to a leaf keeps
exactly `shift/bits + 1` edges; each `bits` step wraps the spine in a new
interior node whose child 0 is the spine so far. -/
def newPath {T : Type} (levels bits k : Nat) (tail : List T) : Option (VNode T) :=
  newPathGo k bits (levels / max bits 1 + 1) levels (newLeaf tail)

/-- Source `vector.go`: the `Vector` value — props, length, tail and
optional trie root. The zero value is the empty vector. -/
structure Vector (T : Type) where
  props : Props := {}
  length : Nat := 0
  tail : List T := []
  root : Option (VNode T) := none

/-- Source `vector.go` `Immutable(opts…)`: the empty vector with all
options applied to its props. -/
def Immutable (T : Type) (opts : List (Props → Props)) : Vector T :=
  { props := opts.foldl (fun p o => o p) {} }

/-- Source `vector.go` `DegreeExponent(n)`: clamp the exponent into
`[1..5]` (non-positive exponents become 2), then overwrite the props with
`bits = n`, `degree = 2^bits`, `mask = degree - 1` (and shift 0). -/
def DegreeExponent (n : Int) : Props → Props := fun _p =>
  let n1 : Int := if n ≤ 0 then 2 else if n > 5 then 5 else n
  let b := n1.toNat
  { bits := b, degree := 2 ^ b, mask := 2 ^ b - 1, shift := 0 }

/-- Source `vector.go` `Len`. -/
def Len {T : Type} (v : Vector T) : Nat := v.length

/-- Source `vector.go` `Last`: `Nothing` for an empty tail, otherwise
`Just` of the tail's last value. -/
def Last {T : Type} (v : Vector T) : Option T :=
  if v.tail.length = 0 then none else v.tail.getLast?

/-- Source `vector.go` `tailOffset`: `(length-1) &^ mask` on `uint32`. -/
def tailOffset {T : Type} (v : Vector T) : Nat :=
  andNot (usub v.length 1) v.props.mask

/-- Source `vector.go` `tailFull`: the tail is full when it holds at least
`degree` values. -/
def tailFull {T : Type} (v : Vector T) : Bool :=
  decide (v.props.degree ≤ v.tail.length)

/-- A child pointer found in a node's children list is structurally
smaller than the node (termination measure of the descent loops). -/
theorem sizeOf_child_lt {T : Type} (node : VNode T) (j : Nat) (child : VNode T)
    (h : node.children[j]? = some (some child)) : sizeOf child < sizeOf node := by
  cases node with
  | mk cs ls =>
    simp only [VNode.children] at h
    have hm : some child ∈ cs := by
      obtain ⟨hlt, he⟩ := List.getElem?_eq_some.mp h
      exact he ▸ List.getElem_mem hlt
    have h1 := List.sizeOf_lt_of_mem hm
    simp only [Option.some.sizeOf_spec] at h1
    simp only [VNode.mk.sizeOf_spec]
    omega

/-- Source `vector.go` `Get`, trie-descent loop
(`for level := v.shift; level > 0; level -= v.bits`): walk down the child
at `(i >> level) & mask`; at level 0 read the leaf at `i & mask`. An
out-of-range child index or a nil child pointer panics in Go (`none`). -/
def getLoop {T : Type} (bits mask i : Nat) (node : VNode T) (level : Nat) : Option T :=
  if level = 0 then node.leafs[i &&& mask]?
  else
    match h : node.children[(i >>> level) &&& mask]? with
    | none => none
    | some none => none
    | some (some child) => getLoop bits mask i child (usub level bits)
termination_by sizeOf node
decreasing_by exact sizeOf_child_lt _ _ _ h

/-- Source `vector.go` `Set`, trie-descent loop: clone the path down to
the leaf, replace the value at `i & mask` there, and relink the clones. -/
def setLoop {T : Type} (bits mask i : Nat) (x : T) (node : VNode T) (level : Nat) :
    Option (VNode T) :=
  if level = 0 then
    if i &&& mask < node.leafs.length then
      some ⟨node.children, node.leafs.set (i &&& mask) x⟩
    else none
  else
    match h : node.children[(i >>> level) &&& mask]? with
    | none => none
    | some none => none
    | some (some child) =>
        (setLoop bits mask i x child (usub level bits)).map
          (fun c => ⟨node.children.set ((i >>> level) &&& mask) (some c), node.leafs⟩)
termination_by sizeOf node
decreasing_by exact sizeOf_child_lt _ _ _ h

/-- Source `vector.go` `Get`: bounds-assert, re-init the props, then read
from the tail (for `i ≥ tailOffset`) or through the trie. -/
def Get {T : Type} (v : Vector T) (i : Nat) : Option T :=
  if i % U32MOD < v.length then
    if tailOffset { v with props := v.props.init } ≤ i % U32MOD then
      v.tail[(i % U32MOD) &&& v.props.init.mask]?
    else
      match v.root with
      | none => none
      | some root =>
          getLoop v.props.init.bits v.props.init.mask (i % U32MOD) root v.props.init.shift
  else none

/-- Source `vector.go` `Set`: bounds-assert, re-init the props, then
either replace in a copy of the tail or clone the trie path via the
descent loop. -/
def Set {T : Type} [Inhabited T] (v : Vector T) (i : Nat) (x : T) : Option (Vector T) :=
  if i % U32MOD < v.length then
    if tailOffset { v with props := v.props.init } ≤ i % U32MOD then
      if (i % U32MOD) &&& v.props.init.mask < (cloneTail v.tail v.tail.length).length then
        some { length := v.length, props := v.props.init, root := v.root,
               tail := (cloneTail v.tail v.tail.length).set
                 ((i % U32MOD) &&& v.props.init.mask) x }
      else none
    else
      match v.root with
      | none => none
      | some root =>
          (setLoop v.props.init.bits v.props.init.mask (i % U32MOD) x root
              v.props.init.shift).map
            (fun newRoot =>
              { length := v.length, props := v.props.init, root := some newRoot,
                tail := v.tail })
  else none

/-- Wrap-around `uint32` addition (the source increments `v.length`,
a `uint32`, on every push). -/
def uadd (a b : Nat) : Nat := (a + b) % U32MOD

/-- Source `vector.go` `pushLeaf`, descent loop. The loop counter steps
by the package constant `bits = 5` (`level -= bits`), the inner spine is
built at `level-5` and the final leaf is linked at `(i>>5) & v.mask` —
all independent of the configured per-vector `v.bits`. A nil child slot
receives a fresh spine and the walk stops; otherwise the child is cloned
and descended into; at level 0 the tail is linked as a leaf. Out-of-range
child indices panic in Go (`none`). -/
def pushLeafGo {T : Type} (bits mask degree : Nat) (tail : List T) (i : Nat)
    (node : VNode T) (level : Nat) : Option (VNode T) :=
  if level = 0 then
    if (i >>> bitsConst) &&& mask < node.children.length then
      some ⟨node.children.set ((i >>> bitsConst) &&& mask) (some (newLeaf tail)), node.leafs⟩
    else none
  else
    match h : node.children[(i >>> level) &&& mask]? with
    | none => none
    | some none =>
        (newPath (usub level bitsConst) bits degree tail).map
          (fun p => ⟨node.children.set ((i >>> level) &&& mask) (some p), node.leafs⟩)
    | some (some child) =>
        (pushLeafGo bits mask degree tail i child (usub level bitsConst)).map
          (fun c => ⟨node.children.set ((i >>> level) &&& mask) (some c), node.leafs⟩)
termination_by sizeOf node
decreasing_by exact sizeOf_child_lt _ _ _ h

/-- Source `vector.go` `Push`: append to the tail while it is not full;
otherwise move the tail into the trie — as the new root leaf when
`length == degree`, under a new two-child root when the root is full
(`length >> bits > 1 << shift`), and via `pushLeaf` otherwise. The
`assertThat(v.length >= v.degree, …)` panic and the nil-root dereference
inside `pushLeaf` are `none`. -/
def Push {T : Type} [Inhabited T] (v0 : Vector T) (x : T) : Option (Vector T) :=
  let v : Vector T := { v0 with props := v0.props.init }
  if ¬ tailFull v then
    some { length := uadd v.length 1, props := v.props, root := v.root,
           tail := (cloneTail v.tail (v.tail.length + 1)).set v.tail.length x }
  else if v.length < v.props.degree then none
  else if v.length = v.props.degree then
    match v.root with
    | some _ => none
    | none =>
        some { length := uadd v.length 1, props := v.props.withShift 0,
               root := some (newLeaf v.tail), tail := [x] }
  else if ((1 <<< v.props.shift) % U32MOD) < (v.length >>> v.props.bits) then
    if v.props.degree < 2 then none
    else
      match newPath v.props.shift v.props.bits v.props.degree v.tail with
      | none => none
      | some spine =>
          some { length := uadd v.length 1,
                 props := v.props.withShift (uadd v.props.shift v.props.bits),
                 root := some ⟨((List.replicate v.props.degree none).set 0 v.root).set 1
                   (some spine), []⟩,
                 tail := [x] }
  else
    match v.root with
    | none => none
    | some root =>
        (pushLeafGo v.props.bits v.props.mask v.props.degree v.tail (usub v.length 1)
            root v.props.shift).map
          (fun newRoot =>
            { length := uadd v.length 1, props := v.props, root := some newRoot,
              tail := [x] })

/-- Source `vector.go` `lowerTrie`, tail-finding loop
(`for level := lowerShift; level > 0; level -= bits`, `bits` the package
constant 5): follow child 0 down. -/
def lowerTrieGo {T : Type} (node : VNode T) (level : Nat) : Option (VNode T) :=
  if level = 0 then some node
  else
    match h : node.children[0]? with
    | none => none
    | some none => none
    | some (some child) => lowerTrieGo child (usub level bitsConst)
termination_by sizeOf node
decreasing_by exact sizeOf_child_lt _ _ _ h

/-- Source `vector.go` `lowerTrie`: drop the root one level — child 0
becomes the new root, and the new tail is found by walking child 1 down
along child 0 for `lowerShift = shift - bits` levels. -/
def lowerTrie {T : Type} (v : Vector T) : Option (Vector T) :=
  match v.root with
  | none => none
  | some root =>
      match root.children[0]? with
      | none => none
      | some newRoot =>
          match root.children[1]? with
          | none => none
          | some none => none
          | some (some n1) =>
              (lowerTrieGo n1 (usub v.props.shift v.props.bits)).map
                (fun nd =>
                  { length := usub v.length 1,
                    props := v.props.withShift (usub v.props.shift v.props.bits),
                    root := newRoot, tail := nd.leafs })

/-- Source `vector.go` `popTrie`, loop after the path has forked: no more
copying happens, the walk just follows the index path down to the node
holding the new tail. -/
def popDescend {T : Type} (mask nts : Nat) (node : VNode T) (level : Nat) :
    Option (VNode T) :=
  if level = 0 then some node
  else
    match h : node.children[(nts >>> level) &&& mask]? with
    | none => none
    | some none => none
    | some (some child) => popDescend mask nts child (usub level bitsConst)
termination_by sizeOf node
decreasing_by exact sizeOf_child_lt _ _ _ h

/-- Source `vector.go` `popTrie`, main loop (`level -= bits`, `bits` the
package constant 5): clone the path towards `newTrieSize` until the fork
point (`forkPoint >> level != 0`), nil out the forked child slot there,
then descend without copying; returns the rebuilt node together with the
bottom node reached (whose leafs become the new tail). A nil child
pointer makes Go panic on the following dereference (`none`). -/
def popTrieGo {T : Type} (mask nts fp : Nat) (node : VNode T) (level : Nat) :
    Option (VNode T × VNode T) :=
  if level = 0 then some (node, node)
  else
    match h : node.children[(nts >>> level) &&& mask]? with
    | none => none
    | some none => none
    | some (some child) =>
        if (fp >>> level) ≠ 0 then
          (popDescend mask nts child (usub level bitsConst)).map
            (fun bottom =>
              (⟨node.children.set ((nts >>> level) &&& mask) none, node.leafs⟩, bottom))
        else
          (popTrieGo mask nts fp child (usub level bitsConst)).map
            (fun pr =>
              (⟨node.children.set ((nts >>> level) &&& mask) (some pr.1), node.leafs⟩,
                pr.2))
termination_by sizeOf node
decreasing_by exact sizeOf_child_lt _ _ _ h

/-- Source `vector.go` `popTrie`: remove the rightmost leaf from the trie
(its values become the new tail), copying the path down to the fork
point. -/
def popTrie {T : Type} (v : Vector T) : Option (Vector T) :=
  match v.root with
  | none => none
  | some root =>
      (popTrieGo v.props.mask (usub (usub v.length v.props.degree) 1)
          ((usub (usub v.length v.props.degree) 1) ^^^
            (usub (usub (usub v.length v.props.degree) 1) 1))
          root v.props.shift).map
        (fun pr =>
          { length := usub v.length 1, props := v.props, root := some pr.1,
            tail := pr.2.leafs })

/-- Source `vector.go` `Pop`: empty vector panics; a one-element vector
becomes the empty vector; a tail with more than one element shrinks by
one; otherwise the trie gives up its rightmost leaf — to the tail
directly when the root vanishes (`newTrieSize == 0`), via `lowerTrie`
when the height shrinks (`newTrieSize == 1 << shift`), and via `popTrie`
otherwise. -/
def Pop {T : Type} [Inhabited T] (v0 : Vector T) : Option (Vector T) :=
  if v0.length = 0 then none
  else
    let v : Vector T := { v0 with props := v0.props.init }
    if v.length = 1 then some { props := v.props.withShift 0 }
    else if 0 < (usub v.length 1) &&& v.props.mask then
      if v.tail.length = 0 then none
      else
        some { length := usub v.length 1, props := v.props, root := v.root,
               tail := cloneTail v.tail (v.tail.length - 1) }
    else if usub (usub v.length v.props.degree) 1 = 0 then
      match v.root with
      | none => none
      | some root =>
          some { length := v.props.degree, props := v.props.withShift 0, root := none,
                 tail := root.leafs }
    else if usub (usub v.length v.props.degree) 1 = (1 <<< v.props.shift) % U32MOD then
      lowerTrie v
    else popTrie v

/-- Fold a list of pushes over a vector, failing as soon as one push
panics (used to build reachable vectors for evaluation). -/
def pushMany {T : Type} [Inhabited T] (v : Vector T) (xs : List T) : Option (Vector T) :=
  xs.foldlM Push v

end Vec

/-! ## Claim C3: the water-mark relation -/

/-- Claim C3, counterexample: the claim asserts that the water-mark relation
`high_water_mark = ceil_pow2(low_water_mark*2) - 2` holds in particular for
the default water marks installed whenever a tree's low water mark is unset.
It does not: the installed defaults are `(3, 7)` (from
`defaultHighWaterMark = (defaultLowWaterMark+1)*2 - 1 = 7` in `btree.go`),
while the relation demands `ceiling(3*2) - 2 = 6`. -/
theorem claim_C3_counterexample :
    (Btree.Tree.shallowCloneWithRoot ({} : Btree.Tree Int Int) (.mk [] [])).lowWaterMark
        = Btree.defaultLowWaterMark
    ∧ (Btree.Tree.shallowCloneWithRoot ({} : Btree.Tree Int Int) (.mk [] [])).highWaterMark
        = Btree.defaultHighWaterMark
    ∧ Btree.ceiling ((Btree.Tree.shallowCloneWithRoot ({} : Btree.Tree Int Int)
          (.mk [] [])).lowWaterMark * 2) - 2
        ≠ (Btree.Tree.shallowCloneWithRoot ({} : Btree.Tree Int Int) (.mk [] [])).highWaterMark := by
  refine ⟨rfl, rfl, ?_⟩
  decide

/-- Claim C3, amended: a tree created with degree option `n` has
`low_water_mark = max(2, n-1)` and satisfies
`high_water_mark = ceil_pow2(low_water_mark*2) - 2` (with `ceil_pow2` the
source function `ceiling`, as witnessed by the test expectation
`Immutable(Degree(2))` ⇒ marks `2 | 6`); but the default water marks
installed whenever a tree's low water mark is unset are `(3, 7)`, which do
not satisfy the relation, since `ceiling(3*2) - 2 = 6 ≠ 7`. -/
theorem claim_C3_amended (K V : Type) (n : Nat) :
    (Btree.Immutable ([Btree.Degree n] : List (Btree.TreeOption K V))).lowWaterMark = max 2 (n - 1)
    ∧ (Btree.Immutable ([Btree.Degree n] : List (Btree.TreeOption K V))).highWaterMark
        = Btree.ceiling ((Btree.Immutable ([Btree.Degree n] : List (Btree.TreeOption K V))).lowWaterMark * 2) - 2
    ∧ (Btree.Immutable ([Btree.Degree 2] : List (Btree.TreeOption K V))).lowWaterMark = 2
    ∧ (Btree.Immutable ([Btree.Degree 2] : List (Btree.TreeOption K V))).highWaterMark = 6
    ∧ Btree.defaultLowWaterMark = 3
    ∧ Btree.defaultHighWaterMark = 7
    ∧ Btree.ceiling (Btree.defaultLowWaterMark * 2) - 2 ≠ Btree.defaultHighWaterMark := by
  refine ⟨rfl, rfl, rfl, rfl, rfl, rfl, ?_⟩
  decide

/-! ## Claim C2: the push/pop law

With degree exponent 1 (degree 2, bits 1), eight pushes succeed and build
a two-level trie with shift 2; the ninth push must extend the trie via
`pushLeaf`, whose descent loop steps the level by the package constant 5
instead of the vector's `bits = 1`: the `uint32` level wraps around, the
shifted index becomes 0, and the walk runs into a leaf node whose nil
children slice is indexed — a panic in Go. The push/pop round trip
cannot even be computed on this reachable vector. -/

/-- The vector reached by pushing 77…84 onto
`Immutable[int](DegreeExponent(1))`: length 8, tail `[83, 84]`, shift 2,
root with the two subtrees `[[77,78],[79,80]]` and `[[81,82], nil]`. -/
def c2v8 : Vec.Vector Int :=
  { props := ⟨1, 2, 1, 2⟩, length := 8, tail := [83, 84],
    root := some ⟨[some ⟨[some ⟨[], [77, 78]⟩, some ⟨[], [79, 80]⟩], []⟩,
                   some ⟨[some ⟨[], [81, 82]⟩, none], []⟩], []⟩ }

/-- Eight pushes onto the degree-2 vector reach `c2v8`. -/
theorem c2v8_reached :
    Vec.pushMany (Vec.Immutable Int [Vec.DegreeExponent 1]) [77, 78, 79, 80, 81, 82, 83, 84]
      = some c2v8 := rfl

/-- The ninth push onto `c2v8` panics inside `pushLeaf`: the descent from
level 2 steps the level by the constant 5, wrapping the `uint32` counter
to 4294967293, and runs into the leaf `[81, 82]`, whose empty children
slice is indexed. -/
theorem c2push_none : Vec.Push c2v8 85 = none := by
  have h3 : Vec.pushLeafGo 1 1 2 ([83, 84] : List Int) 7 (⟨[], [81, 82]⟩ : Vec.VNode Int)
      (Vec.usub 4294967293 5) = none := by
    rw [Vec.pushLeafGo.eq_def]
    rw [if_neg (by decide)]
    split
    · rfl
    · rename_i h; simp [Vec.VNode.children] at h
    · rename_i h; simp [Vec.VNode.children] at h
  have h2 : Vec.pushLeafGo 1 1 2 ([83, 84] : List Int) 7
      (⟨[some ⟨[], [81, 82]⟩, none], []⟩ : Vec.VNode Int) 4294967293 = none := by
    rw [Vec.pushLeafGo.eq_def]
    rw [if_neg (by decide)]
    split
    · rfl
    · rename_i h
      simp [Vec.VNode.children, show ((7 : Nat) >>> 4294967293 &&& 1) = 0 by decide] at h
    · rename_i child h
      simp [Vec.VNode.children, show ((7 : Nat) >>> 4294967293 &&& 1) = 0 by decide] at h
      subst h
      rw [show (Vec.usub 4294967293 Vec.bitsConst) = Vec.usub 4294967293 5 by decide, h3]
      rfl
  have h1 : Vec.pushLeafGo 1 1 2 ([83, 84] : List Int) 7
      (⟨[some ⟨[some ⟨[], [77, 78]⟩, some ⟨[], [79, 80]⟩], []⟩,
         some ⟨[some ⟨[], [81, 82]⟩, none], []⟩], []⟩ : Vec.VNode Int) 2 = none := by
    rw [Vec.pushLeafGo.eq_def]
    rw [if_neg (by decide)]
    split
    · rfl
    · rename_i h
      simp [Vec.VNode.children, show ((7 : Nat) >>> 2 &&& 1) = 1 by decide] at h
    · rename_i child h
      simp [Vec.VNode.children, show ((7 : Nat) >>> 2 &&& 1) = 1 by decide] at h
      subst h
      rw [show (Vec.usub 2 Vec.bitsConst) = 4294967293 by decide, h2]
      rfl
  simp only [c2v8, Vec.Push, Vec.Props.init, Vec.tailFull, Vec.uadd, Vec.usub, Vec.U32MOD,
    Vec.cloneTail, Vec.newLeaf, Vec.bitsConst, Vec.VNode.children, Vec.VNode.leafs]
  norm_num
  rw [if_neg (by decide)]
  rw [h1]
  rfl

/-- **C2**: the claim says that for every vector (every degree exponent in
1..5) and value x, `vector.push(x).pop()` equals the original vector. It
fails: with degree exponent 1, the vector reached by pushing
77, 78, …, 84 is built (first conjunct), but pushing one further value
crashes in `pushLeaf` (mixing the configured `bits = 1` with the package
constant 5), so `push(85)` followed by `pop` yields no vector at all
(second conjunct) instead of the original. -/
theorem claim_C2_eval :
    (Vec.pushMany (Vec.Immutable Int [Vec.DegreeExponent 1])
      [77, 78, 79, 80, 81, 82, 83, 84]).isSome = true
    ∧ (Vec.pushMany (Vec.Immutable Int [Vec.DegreeExponent 1])
        [77, 78, 79, 80, 81, 82, 83, 84]).bind
          (fun v => (Vec.Push v 85).bind Vec.Pop) = none := by
  constructor
  · rw [c2v8_reached]; rfl
  · rw [c2v8_reached, Option.some_bind, c2push_none, Option.none_bind]

/-! ## Claim C6: the set/get law -/

/-- Copying a tail at its own length is the identity. -/
theorem cloneTail_self {T : Type} [Inhabited T] (tail : List T) :
    Vec.cloneTail tail tail.length = tail := by
  simp [Vec.cloneTail]

/-- Re-initialising props is idempotent (the defaults have degree 8 ≠ 0). -/
theorem init_idem (p : Vec.Props) : p.init.init = p.init := by
  unfold Vec.Props.init
  by_cases h : p.degree = 0 <;> simp [h]

/-- If the read descent of `Get` reaches a value, the write descent of
`Set` succeeds along the same path, and re-reading the rebuilt trie at
the same index yields the written value. -/
theorem setLoop_getLoop {T : Type} (bits mask i : Nat) (x : T) :
    ∀ (fuel : Nat) (node : Vec.VNode T) (level : Nat) (val : T),
      sizeOf node ≤ fuel →
      Vec.getLoop bits mask i node level = some val →
      ∃ nd, Vec.setLoop bits mask i x node level = some nd ∧
        Vec.getLoop bits mask i nd level = some x := by
  intro fuel
  induction fuel with
  | zero =>
      intro node level val hsz _
      exfalso
      cases node with
      | mk cs ls => simp only [Vec.VNode.mk.sizeOf_spec] at hsz; omega
  | succ n ih =>
      intro node level val hsz hget
      rw [Vec.getLoop.eq_def] at hget
      by_cases hl : level = 0
      · rw [if_pos hl] at hget
        obtain ⟨hlt, -⟩ := List.getElem?_eq_some.mp hget
        refine ⟨⟨node.children, node.leafs.set (i &&& mask) x⟩, ?_, ?_⟩
        · rw [Vec.setLoop.eq_def, if_pos hl]
          simp [hlt]
        · rw [Vec.getLoop.eq_def, if_pos hl]
          simp only [Vec.VNode.leafs]
          rw [List.getElem?_set_self]
          exact hlt
      · rw [if_neg hl] at hget
        split at hget
        · exact absurd hget (by simp)
        · exact absurd hget (by simp)
        · rename_i child hc
          have hszc : sizeOf child ≤ n := by
            have := Vec.sizeOf_child_lt node _ child hc
            omega
          obtain ⟨nd, hset, hget2⟩ := ih child (Vec.usub level bits) val hszc hget
          obtain ⟨hidx, -⟩ := List.getElem?_eq_some.mp hc
          refine ⟨⟨node.children.set ((i >>> level) &&& mask) (some nd), node.leafs⟩, ?_, ?_⟩
          · rw [Vec.setLoop.eq_def, if_neg hl]
            split
            · rename_i hc2; rw [hc] at hc2; exact absurd hc2 (by simp)
            · rename_i hc2; rw [hc] at hc2; exact absurd hc2 (by simp)
            · rename_i child2 hc2
              rw [hc] at hc2
              simp only [Option.some.injEq] at hc2
              subst hc2
              rw [hset]
              rfl
          · rw [Vec.getLoop.eq_def, if_neg hl]
            have he : (Vec.VNode.mk (node.children.set ((i >>> level) &&& mask) (some nd))
                node.leafs).children[(i >>> level) &&& mask]? = some (some nd) := by
              simp only [Vec.VNode.children]
              rw [List.getElem?_set_self]
              exact hidx
            split
            · rename_i hc2; rw [he] at hc2; exact absurd hc2 (by simp)
            · rename_i hc2; rw [he] at hc2; exact absurd hc2 (by simp)
            · rename_i child2 hc2
              rw [he] at hc2
              simp only [Option.some.injEq] at hc2
              subst hc2
              exact hget2

/-- **C6**: for every vector and value x, at every index the vector
actually holds an element at (`Get` returns a value, which in Go is every
index in `0 ≤ i < length` on which `Get` does not panic), `set(i, x)`
succeeds and `set(i, x).get(i) = x`. -/
theorem claim_C6 {T : Type} [Inhabited T] (v : Vec.Vector T) (i : Nat) (x : T)
    (h : (Vec.Get v i).isSome = true) :
    ∃ w, Vec.Set v i x = some w ∧ Vec.Get w i = some x := by
  unfold Vec.Get at h
  by_cases h1 : i % Vec.U32MOD < v.length
  case neg => rw [if_neg h1] at h; simp at h
  rw [if_pos h1] at h
  by_cases h2 : Vec.tailOffset { v with props := v.props.init } ≤ i % Vec.U32MOD
  · rw [if_pos h2] at h
    obtain ⟨val, hval⟩ := Option.isSome_iff_exists.mp h
    obtain ⟨hlt, -⟩ := List.getElem?_eq_some.mp hval
    refine ⟨⟨v.props.init, v.length,
      (Vec.cloneTail v.tail v.tail.length).set ((i % Vec.U32MOD) &&& v.props.init.mask) x,
      v.root⟩, ?_, ?_⟩
    · unfold Vec.Set
      rw [if_pos h1, if_pos h2, if_pos (by rw [cloneTail_self]; exact hlt)]
    · unfold Vec.Get
      dsimp only
      rw [init_idem]
      rw [if_pos h1]
      have h2x : Vec.tailOffset { v with props := v.props.init } =
          Vec.tailOffset (⟨v.props.init, v.length,
            (Vec.cloneTail v.tail v.tail.length).set
              ((i % Vec.U32MOD) &&& v.props.init.mask) x,
            v.root⟩ : Vec.Vector T) := by
        simp [Vec.tailOffset]
      rw [← h2x, if_pos h2]
      rw [cloneTail_self]
      rw [List.getElem?_set_self]
      exact hlt
  · rw [if_neg h2] at h
    split at h
    · simp at h
    · rename_i root hr
      obtain ⟨val, hval⟩ := Option.isSome_iff_exists.mp h
      obtain ⟨nd, hset, hget2⟩ := setLoop_getLoop v.props.init.bits v.props.init.mask
        (i % Vec.U32MOD) x (sizeOf root) root v.props.init.shift val le_rfl hval
      refine ⟨⟨v.props.init, v.length, v.tail, some nd⟩, ?_, ?_⟩
      · unfold Vec.Set
        rw [if_pos h1, if_neg h2, hr]
        dsimp only
        rw [hset]
        rfl
      · unfold Vec.Get
        dsimp only
        rw [init_idem]
        rw [if_pos h1]
        have h2x : Vec.tailOffset { v with props := v.props.init } =
            Vec.tailOffset (⟨v.props.init, v.length, v.tail, some nd⟩ : Vec.Vector T) := by
          simp [Vec.tailOffset]
        rw [← h2x, if_neg h2]
        exact hget2

/-- Witness for C6: the one-element vector with default props, tail `[5]`
and length 1, read and written at index 0. -/
theorem claim_C6_witness :
    ((Vec.Get (⟨{}, 1, [(5 : Int)], none⟩ : Vec.Vector Int) 0).isSome = true)
    ∧ ∃ w, Vec.Set (⟨{}, 1, [(5 : Int)], none⟩ : Vec.Vector Int) 0 99 = some w
        ∧ Vec.Get w 0 = some 99 :=
  ⟨rfl, claim_C6 _ 0 99 rfl⟩

end FP
